import Mathlib

/-
Verification of the ant-farm world core: the bit-packed tile grid of
src/models/world.ts together with the entity/layer orchestration.
Machine integers are modelled as Nat with explicit reduction modulo 2^32
where the JS typed-array and bitwise-operator coercions apply.
The files quadtree.ts and entity.ts are not part of the provided sources,
so Entity, Rectangle and Quadtree are modelled from the specification
(sections 3, 4.1 and 4.3); everything on World is translated from world.ts.
-/

namespace AntFarm

/-- Modelled from the spec: Entity (entity.ts is absent from the sources).
An externally owned record with a numeric 2D position and a stable identity.
The field eid stands for the reference identity of the JS object: two
distinct objects always carry distinct eids, so structural equality of this
record coincides with JS reference equality. -/
structure Entity where
  eid : Nat
  x : ℚ
  y : ℚ
deriving DecidableEq, Repr

/-- Modelled from the spec: Rectangle (quadtree.ts is absent from the
sources). Axis-aligned box given by center (x, y) and half-extents (w, h),
covering the closed box from (x-w, y-h) to (x+w, y+h). -/
structure Rectangle where
  x : ℚ
  y : ℚ
  w : ℚ
  h : ℚ
deriving DecidableEq, Repr

/-- Modelled from the spec: Rectangle.contains, inclusive on both bounds. -/
def Rectangle.containsP (r : Rectangle) (px py : ℚ) : Bool :=
  decide (r.x - r.w ≤ px) && decide (px ≤ r.x + r.w) &&
  decide (r.y - r.h ≤ py) && decide (py ≤ r.y + r.h)

/-- Containment of the position of an entity. -/
def Rectangle.containsE (r : Rectangle) (e : Entity) : Bool :=
  r.containsP e.x e.y

/-- Modelled from the spec: standard AABB overlap test, touching edges
count as overlap. -/
def Rectangle.intersects (r o : Rectangle) : Bool :=
  decide (o.x - o.w ≤ r.x + r.w) && decide (r.x - r.w ≤ o.x + o.w) &&
  decide (o.y - o.h ≤ r.y + r.h) && decide (r.y - r.h ≤ o.y + o.h)

/-- Modelled from the spec: the NW quadrant of a boundary (north = smaller
y, as in screen coordinates); half the half-extents, centered at the
quadrant midpoint. -/
def Rectangle.quadNW (r : Rectangle) : Rectangle :=
  ⟨r.x - r.w / 2, r.y - r.h / 2, r.w / 2, r.h / 2⟩

/-- Modelled from the spec: the NE quadrant of a boundary. -/
def Rectangle.quadNE (r : Rectangle) : Rectangle :=
  ⟨r.x + r.w / 2, r.y - r.h / 2, r.w / 2, r.h / 2⟩

/-- Modelled from the spec: the SW quadrant of a boundary. -/
def Rectangle.quadSW (r : Rectangle) : Rectangle :=
  ⟨r.x - r.w / 2, r.y + r.h / 2, r.w / 2, r.h / 2⟩

/-- Modelled from the spec: the SE quadrant of a boundary. -/
def Rectangle.quadSE (r : Rectangle) : Rectangle :=
  ⟨r.x + r.w / 2, r.y + r.h / 2, r.w / 2, r.h / 2⟩

/-- Modelled from the spec: a Quadtree node owns a boundary, a capacity,
and either a list of points (leaf) or exactly four children (subdivided). -/
inductive Quadtree where
  | leaf (boundary : Rectangle) (capacity : Nat) (points : List Entity)
  | node (boundary : Rectangle) (capacity : Nat)
      (nw ne sw se : Quadtree)
deriving DecidableEq, Repr

/-- The boundary rectangle of the root node of a quadtree. -/
def Quadtree.boundary : Quadtree → Rectangle
  | .leaf b _ _ => b
  | .node b _ _ _ _ _ => b

/-- Number of stored references to a given entity in the whole tree. -/
def Quadtree.count (e : Entity) : Quadtree → Nat
  | .leaf _ _ pts => pts.count e
  | .node _ _ nw ne sw se => count e nw + count e ne + count e sw + count e se

/-- Modelled from the spec: subdivision of a full leaf. Four children
covering the four equal quadrants of the boundary, each with the same
capacity; the previously held points are distributed into whichever child
contains them, resolved by first-match order NW, NE, SW, SE; a point
contained in no child is dropped. -/
def Quadtree.subdivide (b : Rectangle) (c : Nat) (pts : List Entity) : Quadtree :=
  Quadtree.node b c
    (.leaf b.quadNW c (pts.filter fun p => b.quadNW.containsE p))
    (.leaf b.quadNE c (pts.filter fun p =>
      !b.quadNW.containsE p && b.quadNE.containsE p))
    (.leaf b.quadSW c (pts.filter fun p =>
      !b.quadNW.containsE p && !b.quadNE.containsE p && b.quadSW.containsE p))
    (.leaf b.quadSE c (pts.filter fun p =>
      !b.quadNW.containsE p && !b.quadNE.containsE p &&
      !b.quadSW.containsE p && b.quadSE.containsE p))

/-- Modelled from the spec: Quadtree insert. Outside the boundary the call
is a no-op returning false; a leaf under capacity appends and returns true;
a leaf at capacity subdivides and the entity is then inserted into
whichever child contains it (first-match NW, NE, SW, SE). The fuel
argument models the unbounded recursion of repeated subdivision (the JS
source can recurse without bound on coincident points); none stands for
fuel exhaustion, that is, a non-terminating run of the source. -/
def Quadtree.insert (e : Entity) : Nat → Quadtree → Option (Quadtree × Bool)
  | 0, _ => none
  | fuel + 1, .leaf b c pts =>
    if !b.containsE e then some (.leaf b c pts, false)
    else if pts.length < c then some (.leaf b c (pts ++ [e]), true)
    else Quadtree.insert e fuel (Quadtree.subdivide b c pts)
  | fuel + 1, .node b c nw ne sw se =>
    if !b.containsE e then some (.node b c nw ne sw se, false)
    else if nw.boundary.containsE e then
      (Quadtree.insert e fuel nw).map fun p => (.node b c p.1 ne sw se, p.2)
    else if ne.boundary.containsE e then
      (Quadtree.insert e fuel ne).map fun p => (.node b c nw p.1 sw se, p.2)
    else if sw.boundary.containsE e then
      (Quadtree.insert e fuel sw).map fun p => (.node b c nw ne p.1 se, p.2)
    else if se.boundary.containsE e then
      (Quadtree.insert e fuel se).map fun p => (.node b c nw ne sw p.1, p.2)
    else some (.node b c nw ne sw se, false)

/-- Modelled from the spec: Quadtree remove. A leaf searches its points by
identity and removes the first match; a subdivided node delegates to
whichever child contains the current position of the entity (first-match
NW, NE, SW, SE) and returns the result of that child. -/
def Quadtree.remove (e : Entity) : Quadtree → Quadtree × Option Entity
  | .leaf b c pts =>
    if e ∈ pts then (.leaf b c (pts.erase e), some e)
    else (.leaf b c pts, none)
  | .node b c nw ne sw se =>
    if nw.boundary.containsE e then
      let r := Quadtree.remove e nw; (.node b c r.1 ne sw se, r.2)
    else if ne.boundary.containsE e then
      let r := Quadtree.remove e ne; (.node b c nw r.1 sw se, r.2)
    else if sw.boundary.containsE e then
      let r := Quadtree.remove e sw; (.node b c nw ne r.1 se, r.2)
    else if se.boundary.containsE e then
      let r := Quadtree.remove e se; (.node b c nw ne sw r.1, r.2)
    else (.node b c nw ne sw se, none)

/-- Modelled from the spec: Quadtree query accumulates every stored point
whose position lies in the range, pruning subtrees whose boundary does not
intersect the range. -/
def Quadtree.query (range : Rectangle) : Quadtree → List Entity
  | .leaf b _ pts =>
    if b.intersects range then pts.filter fun p => range.containsE p else []
  | .node b _ nw ne sw se =>
    if b.intersects range then
      query range nw ++ query range ne ++ query range sw ++ query range se
    else []

/-- Modelled from the spec: Quadtree clear resets the node to an empty
leaf, keeping boundary and capacity. -/
def Quadtree.clear : Quadtree → Quadtree
  | .leaf b c _ => .leaf b c []
  | .node b c _ _ _ _ => .leaf b c []

/-- Well-formedness of a quadtree as maintained by the operations above:
every point of a leaf lies inside the boundary of that leaf, and the
children of a subdivided node cover exactly the four quadrants of its
boundary. -/
def Quadtree.wf : Quadtree → Bool
  | .leaf b _ pts => pts.all fun p => b.containsE p
  | .node b _ nw ne sw se =>
    (nw.boundary == b.quadNW) && (ne.boundary == b.quadNE) &&
    (sw.boundary == b.quadSW) && (se.boundary == b.quadSE) &&
    nw.wf && ne.wf && sw.wf && se.wf

/-- A layer pairs a membership set of entities with one quadtree
(world.ts, type Layer). The JS Set is modelled by an insertion-ordered
list without duplicates: add appends when absent, delete erases the
element. -/
structure Layer where
  entities : List Entity
  qtree : Quadtree
deriving DecidableEq, Repr

/-- Node capacity of every layer quadtree (world.ts, quadtreeCapacity). -/
def quadtreeCapacity : Nat := 4

/-- Default layer id (world.ts, DEFAULT_LAYER_ID). -/
def DEFAULT_LAYER_ID : String := "DEFAULT"

/-- Lookup in the JS Map of layers, modelled as an association list with
unique keys in insertion order. -/
def lookupLayer (layers : List (String × Layer)) (lid : String) : Option Layer :=
  (layers.find? fun p => p.1 == lid).map fun p => p.2

/-- Map.set: replace the value of an existing key in place, or append a
new binding at the end. -/
def setLayer : List (String × Layer) → String → Layer → List (String × Layer)
  | [], lid, l => [(lid, l)]
  | (k, v) :: rest, lid, l =>
    if k == lid then (lid, l) :: rest else (k, v) :: setLayer rest lid l

/-- The World of world.ts. The ArrayBuffer data is kept as its byte list
as handed to the constructor; grid is the Uint32Array view of the same
buffer, one Nat per 32-bit cell, and is the authoritative copy once tile
writes start (in the source both names alias one buffer). -/
structure World where
  width : Nat
  height : Nat
  data : List Nat
  grid : List Nat
  entities : List Entity
  entityLayers : List (String × Layer)
deriving DecidableEq, Repr

/-- Little-endian reinterpretation of the byte buffer as 32-bit cells,
as done by the Uint32Array view over the ArrayBuffer. -/
def bytesToWords : List Nat → List Nat
  | b0 :: b1 :: b2 :: b3 :: rest =>
    (b0 + 256 * b1 + 65536 * b2 + 16777216 * b3) :: bytesToWords rest
  | _ => []

/-- The World constructor (world.ts lines 18-46): with a provided buffer
whose byte length differs from width*height*4 it throws; otherwise the
provided buffer, or a fresh zero-filled buffer of that byte length, backs
the grid. The optional entities list defaults to the empty list. -/
def World.create (width height : Nat) (entities : Option (List Entity))
    (worldData : Option (List Nat)) : Except String World :=
  let byteLength := width * height * 4
  match worldData with
  | some bytes =>
    if bytes.length ≠ byteLength then
      Except.error "Provided buffer is not the right size. Provide a buffer of size"
    else
      Except.ok ⟨width, height, bytes, bytesToWords bytes,
        entities.getD [], []⟩
  | none =>
    Except.ok ⟨width, height, List.replicate byteLength 0,
      bytesToWords (List.replicate byteLength 0), entities.getD [], []⟩

/-- World.insert (world.ts lines 56-78): fetch or lazily create the layer
(fresh quadtree over the whole grid, capacity 4), add the entity to the
membership set, insert it into the quadtree of the layer, and push it onto
the global entity list. The fuel is passed to the quadtree insert; none
models a non-terminating quadtree insertion. -/
def World.insert (w : World) (e : Entity) (layerId : String) (fuel : Nat) :
    Option World :=
  let layer := match lookupLayer w.entityLayers layerId with
    | some l => l
    | none =>
      ⟨[], Quadtree.leaf
        ⟨(w.width : ℚ) / 2, (w.height : ℚ) / 2,
         (w.width : ℚ) / 2, (w.height : ℚ) / 2⟩ quadtreeCapacity []⟩
  let members := if e ∈ layer.entities then layer.entities
    else layer.entities ++ [e]
  match Quadtree.insert e fuel layer.qtree with
  | none => none
  | some (qt, _) =>
    some { w with
      entityLayers := setLayer w.entityLayers layerId ⟨members, qt⟩,
      entities := w.entities ++ [e] }

/-- World.remove (world.ts lines 80-94): splice the first occurrence of
the entity (by identity) out of the global list; then, if the named layer
is missing, return null; otherwise remove from the quadtree and the
membership set of the layer and return the entity. -/
def World.remove (w : World) (e : Entity) (layerId : String) :
    World × Option Entity :=
  let globals := w.entities.erase e
  match lookupLayer w.entityLayers layerId with
  | none => ({ w with entities := globals }, none)
  | some layer =>
    let r := Quadtree.remove e layer.qtree
    ({ w with
        entities := globals,
        entityLayers := setLayer w.entityLayers layerId
          ⟨layer.entities.erase e, r.1⟩ },
      some e)

/-- World.query (world.ts lines 111-122): the sentinel "ALL" merges the
query over every layer; otherwise the query of the named layer, or the
empty list when no such layer exists. -/
def World.query (w : World) (range : Rectangle) (layerId : String) :
    List Entity :=
  if layerId = "ALL" then
    (w.entityLayers.map fun p => Quadtree.query range p.2.qtree).flatten
  else
    match lookupLayer w.entityLayers layerId with
    | some layer => Quadtree.query range layer.qtree
    | none => []

/-- World.nearby (world.ts lines 124-129): query with a square box of
half-extent radius centered at the position of the entity. -/
def World.nearby (w : World) (e : Entity) (radius : ℚ) (layerId : String) :
    List Entity :=
  w.query ⟨e.x, e.y, radius, radius⟩ layerId

/-- The keys of World.bitScheme (world.ts lines 191-197). -/
inductive TileProp where
  | entityType
  | entityId
  | terrain
  | homeTrail
  | foodTrail
deriving DecidableEq, Repr

/-- One entry of the bit scheme: field width, bit offset, and mask. -/
structure BitField where
  length : Nat
  offset : Nat
  mask : Nat
deriving DecidableEq, Repr

/-- World.bitScheme (world.ts lines 191-197), with the mask literals of
the source. -/
def bitScheme : TileProp → BitField
  | .entityType => ⟨4, 0, 0b00000000000000000000000000001111⟩
  | .entityId => ⟨12, 4, 0b00000000000000001111111111110000⟩
  | .terrain => ⟨2, 16, 0b00000000000000110000000000000000⟩
  | .homeTrail => ⟨3, 18, 0b00000000000111000000000000000000⟩
  | .foodTrail => ⟨3, 21, 0b00000000111000000000000000000000⟩

/-- The 32-bit complement of the mask of a field: the unsigned value of
the JS expression ~mask for a mask below 2^32. -/
def notMask (p : TileProp) : Nat :=
  (2 ^ 32 - 1) ^^^ (bitScheme p).mask

/-- World.getBitValue (world.ts lines 168-173): (tile & mask) >>> offset.
On tiles below 2^32 the JS int32/uint32 coercions are value-preserving,
so the Nat expression is literal. -/
def getBitValue (tile : Nat) (p : TileProp) : Nat :=
  (tile &&& (bitScheme p).mask) >>> (bitScheme p).offset

/-- World.setBitValue (world.ts lines 178-188):
(value << offset) | (tile & ~mask). The JS << first coerces its left
operand to int32 (keeping the low 32 bits) and the result is reduced to
its low 32 bits again when stored through the Uint32Array, hence the two
reductions modulo 2^32. -/
def setBitValue (tile : Nat) (p : TileProp) (value : Nat) : Nat :=
  (((value % 2 ^ 32) <<< (bitScheme p).offset) ||| (tile &&& notMask p)) % 2 ^ 32

/-- World.getTileRaw (world.ts lines 131-133): read of the Uint32Array at
the flat row-major index; an out-of-range index yields undefined, here
none. -/
def World.getTileRaw (w : World) (x y : Nat) : Option Nat :=
  w.grid.get? (y * w.width + x)

/-- World.setTileRaw (world.ts lines 161-163): store through the
Uint32Array, which reduces the value modulo 2^32; a store at an
out-of-range index is silently dropped (List.set is the identity there,
exactly as the JS typed array). -/
def World.setTileRaw (w : World) (x y value : Nat) : World :=
  { w with grid := w.grid.set (y * w.width + x) (value % 2 ^ 32) }

/-- World.getTileProp (world.ts lines 135-137). An out-of-range read
gives undefined, which the JS bitwise operators of getBitValue coerce to
0; hence the getD 0. -/
def World.getTileProp (w : World) (x y : Nat) (p : TileProp) : Nat :=
  getBitValue ((w.getTileRaw x y).getD 0) p

/-- World.setTileProp (world.ts lines 151-159): read the raw tile, update
the field through setBitValue, write the raw tile back. -/
def World.setTileProp (w : World) (x y : Nat) (p : TileProp) (value : Nat) :
    World :=
  w.setTileRaw x y (setBitValue ((w.getTileRaw x y).getD 0) p value)

/-- A concrete 5 x 5 world with a zeroed grid, as in the test file. -/
def testWorld : World :=
  ⟨5, 5, List.replicate 100 0, List.replicate 25 0, [], []⟩

/-- Claim C2: for every in-bounds coordinate and every 32-bit value,
setTileRaw followed by getTileRaw on the same tile returns exactly that
value. -/
theorem claim_C2_raw_roundtrip (w : World) (x y v : Nat)
    (hx : x < w.width) (hy : y < w.height)
    (hlen : w.grid.length = w.width * w.height) (hv : v < 2 ^ 32) :
    (w.setTileRaw x y v).getTileRaw x y = some v := by
  have hidx : y * w.width + x < w.grid.length := by
    rw [hlen]
    have h1 : y * w.width + x < (y + 1) * w.width := by
      rw [Nat.succ_mul]; omega
    have h2 : (y + 1) * w.width ≤ w.width * w.height := by
      rw [Nat.mul_comm w.width w.height]
      exact Nat.mul_le_mul_right _ hy
    omega
  show (w.grid.set (y * w.width + x) (v % 2 ^ 32)).get? (y * w.width + x)
      = some v
  rw [List.get?_eq_getElem?, List.getElem?_set_eq_of_lt _ hidx,
    Nat.mod_eq_of_lt hv]

/-- Witness for claim C2 at the concrete input of the test file. -/
theorem claim_C2_raw_roundtrip_witness :
    (testWorld.setTileRaw 3 2 420).getTileRaw 3 2 = some 420 :=
  claim_C2_raw_roundtrip testWorld 3 2 420 (by decide) (by decide)
    (by decide) (by decide)

/-- Claim C7: the three concrete tile-codec vectors of the test file: on a
tile holding 0xe009, setTileProp entityType 5 yields raw 0xe005; a tile
holding 0x20000 has terrain 2; a tile holding 0xa has entityType 10. -/
theorem claim_C7_concrete_vectors :
    ((testWorld.setTileRaw 3 3 0xe009).setTileProp 3 3 .entityType 5).getTileRaw
        3 3 = some 0xe005 ∧
    (testWorld.setTileRaw 4 4 0x20000).getTileProp 4 4 .terrain = 2 ∧
    (testWorld.setTileRaw 3 4 0xa).getTileProp 3 4 .entityType = 10 := by
  refine ⟨?_, ?_, ?_⟩ <;> decide

/-- Claim C6: query and nearby against a layer id (other than the ALL
sentinel) for which no layer exists return the empty list. -/
theorem claim_C6_missing_layer_empty (w : World) (range : Rectangle)
    (e : Entity) (radius : ℚ) (lid : String) (hall : lid ≠ "ALL")
    (hmiss : lookupLayer w.entityLayers lid = none) :
    w.query range lid = [] ∧ w.nearby e radius lid = [] := by
  have hq : ∀ r : Rectangle, w.query r lid = [] := by
    intro r
    unfold World.query
    rw [if_neg hall, hmiss]
  exact ⟨hq range, hq _⟩

/-- Witness for claim C6: the empty-layered test world and the layer id
"ants". -/
theorem claim_C6_missing_layer_empty_witness :
    testWorld.query ⟨0, 0, 1, 1⟩ "ants" = [] ∧
    testWorld.nearby ⟨7, 1, 1⟩ 2 "ants" = [] :=
  claim_C6_missing_layer_empty testWorld ⟨0, 0, 1, 1⟩ ⟨7, 1, 1⟩ 2 "ants"
    (by decide) (by rfl)

/-- Claim C3: without a buffer the constructor yields a zero-initialized
grid buffer of exactly width*height*4 bytes and never fails; a provided
buffer of any other byte length fails with the size-mismatch error; a
provided buffer of exactly that byte length is accepted as-is. -/
theorem claim_C3_constructor (width height : Nat) (es : Option (List Entity))
    (buf : List Nat) :
    (∃ w : World, World.create width height es none = Except.ok w ∧
      w.data = List.replicate (width * height * 4) 0 ∧
      w.data.length = width * height * 4) ∧
    (buf.length ≠ width * height * 4 →
      World.create width height es (some buf) = Except.error
        "Provided buffer is not the right size. Provide a buffer of size") ∧
    (buf.length = width * height * 4 →
      ∃ w : World, World.create width height es (some buf) = Except.ok w ∧
        w.data = buf) := by
  refine ⟨⟨_, rfl, rfl, by simp⟩, ?_, ?_⟩
  · intro h
    simp only [World.create]
    rw [if_pos h]
  · intro h
    refine ⟨⟨width, height, buf, bytesToWords buf, es.getD [], []⟩, ?_, rfl⟩
    simp only [World.create]
    rw [if_neg (by omega)]

/-- Witness for claim C3: the 5 x 5 world of the test file, with a wrong
99-byte buffer and a correct 100-byte buffer. -/
theorem claim_C3_constructor_witness :
    World.create 5 5 none (some (List.replicate 99 0)) = Except.error
      "Provided buffer is not the right size. Provide a buffer of size" ∧
    (∃ w : World, World.create 5 5 none (some (List.replicate 100 7))
        = Except.ok w ∧ w.data = List.replicate 100 7) :=
  ⟨(claim_C3_constructor 5 5 none (List.replicate 99 0)).2.1 (by decide),
   (claim_C3_constructor 5 5 none (List.replicate 100 7)).2.2 (by decide)⟩

/-- Lookup after set finds the new binding. -/
theorem lookupLayer_setLayer (ls : List (String × Layer)) (lid : String)
    (l : Layer) : lookupLayer (setLayer ls lid l) lid = some l := by
  induction ls with
  | nil => simp [setLayer, lookupLayer]
  | cons p rest ih =>
    by_cases h : p.1 = lid
    · simp [setLayer, lookupLayer, h]
    · simp only [setLayer]
      rw [if_neg (by simpa using h)]
      unfold lookupLayer at ih ⊢
      rw [List.find?_cons_of_neg _ (by simpa using h)]
      exact ih

/-- Removing an entity that has no stored reference in a quadtree leaves
the tree unchanged and reports not-found. -/
theorem Quadtree.remove_of_count_eq_zero (e : Entity) (t : Quadtree)
    (h : t.count e = 0) : Quadtree.remove e t = (t, none) := by
  induction t with
  | leaf b c pts =>
    have hmem : e ∉ pts := by
      rw [← List.count_eq_zero]
      simpa [Quadtree.count] using h
    simp [Quadtree.remove, hmem]
  | node b c nw ne sw se ihnw ihne ihsw ihse =>
    simp only [Quadtree.count] at h
    have hnw := ihnw (by omega)
    have hne := ihne (by omega)
    have hsw := ihsw (by omega)
    have hse := ihse (by omega)
    simp only [Quadtree.remove, hnw, hne, hsw, hse]
    split_ifs <;> rfl

/-- Claim C5: World.remove splices the first identity match out of the
global entity list in every case; when the named layer exists it also
erases the entity from the membership set and applies the quadtree
removal of that layer and returns the entity, and when the named layer
does not exist it returns none. Removal of an entity absent from the
layer is a non-fatal not-found: the quadtree and the membership set are
left unchanged. The operation is total, so no failure is ever thrown. -/
theorem claim_C5_remove (w : World) (e : Entity) (lid : String) :
    (w.remove e lid).1.entities = w.entities.erase e ∧
    (lookupLayer w.entityLayers lid = none →
      (w.remove e lid).2 = none ∧
      (w.remove e lid).1.entityLayers = w.entityLayers) ∧
    (∀ layer, lookupLayer w.entityLayers lid = some layer →
      (w.remove e lid).2 = some e ∧
      lookupLayer (w.remove e lid).1.entityLayers lid =
        some ⟨layer.entities.erase e, (Quadtree.remove e layer.qtree).1⟩ ∧
      (layer.qtree.count e = 0 →
        Quadtree.remove e layer.qtree = (layer.qtree, none)) ∧
      (e ∉ layer.entities → layer.entities.erase e = layer.entities)) := by
  refine ⟨?_, ?_, ?_⟩
  · simp only [World.remove]
    cases hl : lookupLayer w.entityLayers lid <;> simp [hl]
  · intro hl
    simp [World.remove, hl]
  · intro layer hl
    refine ⟨?_, ?_, Quadtree.remove_of_count_eq_zero e layer.qtree,
      fun hm => List.erase_of_not_mem hm⟩
    · simp [World.remove, hl]
    · simp only [World.remove, hl]
      exact lookupLayer_setLayer _ _ _

/-- A concrete entity for the witnesses. -/
def entA : Entity := ⟨1, 1, 1⟩

/-- A further concrete entity for the witnesses. -/
def entB : Entity := ⟨2, 4, 4⟩

/-- The boundary rectangle of the test layer: the whole 5 x 5 grid. -/
def rectA : Rectangle := ⟨(5 : ℚ) / 2, 5 / 2, 5 / 2, 5 / 2⟩

/-- A concrete layer whose quadtree holds entA once. -/
def layerA : Layer := ⟨[entA], Quadtree.leaf rectA 4 [entA]⟩

/-- A concrete world holding entA in layer "A". -/
def worldA : World :=
  ⟨5, 5, List.replicate 100 0, List.replicate 25 0, [entA], [("A", layerA)]⟩

/-- Witness for claim C5: removing entA from the existing layer "A" of
worldA returns it and leaves the expected state; entB is absent, and its
removal from the quadtree is a non-fatal not-found. -/
theorem claim_C5_remove_witness :
    (worldA.remove entA "A").1.entities = [] ∧
    (worldA.remove entA "A").2 = some entA ∧
    Quadtree.remove entB layerA.qtree = (layerA.qtree, none) := by
  refine ⟨?_, ?_, ?_⟩
  · have h := (claim_C5_remove worldA entA "A").1
    rw [h]; decide
  · exact ((claim_C5_remove worldA entA "A").2.2 layerA (by rfl)).1
  · exact ((claim_C5_remove worldA entB "A").2.2 layerA (by rfl)).2.2.1
      (by decide)

/-- Claim C8: World.remove is not atomic on its failure path: with the
entity present in the global list and the named layer missing, the call
returns none and has nonetheless already removed the first occurrence of
the entity from the global list, so the state is mutated despite the
failure result. -/
theorem claim_C8_remove_not_atomic (w : World) (e : Entity) (lid : String)
    (he : e ∈ w.entities) (hl : lookupLayer w.entityLayers lid = none) :
    (w.remove e lid).2 = none ∧
    (w.remove e lid).1.entities = w.entities.erase e ∧
    (w.remove e lid).1.entities ≠ w.entities ∧
    (w.remove e lid).1.entities.length + 1 = w.entities.length := by
  have h1 : (w.remove e lid).1.entities = w.entities.erase e := by
    simp only [World.remove]
    cases hc : lookupLayer w.entityLayers lid <;> simp [hc]
  have hlen : (w.entities.erase e).length + 1 = w.entities.length := by
    rw [List.length_erase_of_mem he]
    have : w.entities.length ≠ 0 := by
      intro h0
      rw [List.length_eq_zero] at h0
      simp [h0] at he
    omega
  refine ⟨by simp [World.remove, hl], h1, ?_, by rw [h1]; exact hlen⟩
  rw [h1]
  intro hcontra
  have := congrArg List.length hcontra
  omega

/-- Witness for claim C8: removing entA of worldA while naming the
nonexistent layer "B" returns none yet shrinks the global list. -/
theorem claim_C8_remove_not_atomic_witness :
    (worldA.remove entA "B").2 = none ∧
    (worldA.remove entA "B").1.entities = [entA].erase entA ∧
    (worldA.remove entA "B").1.entities ≠ [entA] ∧
    (worldA.remove entA "B").1.entities.length + 1 = 1 :=
  claim_C8_remove_not_atomic worldA entA "B" (by decide) (by rfl)

/-- Claim C9: getTileRaw and setTileRaw perform no bounds check. With
x at least width but a flat index y*width+x still inside the grid, the
read returns the tile of a later row (the cell at column index mod width
of row index div width, a row strictly below y) and the write overwrites
that same cell; with the flat index outside the grid, the read yields
undefined (none) and the write is silently dropped, and no IndexOutOfBounds
error is raised in either case. -/
theorem claim_C9_no_bounds_check (w : World) (x y v : Nat)
    (hlen : w.grid.length = w.width * w.height) (hx : w.width ≤ x) :
    (y * w.width + x < w.width * w.height →
      (w.getTileRaw x y).isSome ∧
      w.getTileRaw x y =
        w.getTileRaw ((y * w.width + x) % w.width) ((y * w.width + x) / w.width) ∧
      y < (y * w.width + x) / w.width ∧
      w.setTileRaw x y v =
        w.setTileRaw ((y * w.width + x) % w.width) ((y * w.width + x) / w.width) v) ∧
    (w.width * w.height ≤ y * w.width + x →
      w.getTileRaw x y = none ∧ w.setTileRaw x y v = w) := by
  constructor
  · intro hin
    have hw : 0 < w.width := by
      rcases Nat.eq_zero_or_pos w.width with h0 | h
      · rw [h0] at hin; omega
      · exact h
    have hid : (y * w.width + x) / w.width * w.width +
        (y * w.width + x) % w.width = y * w.width + x := by
      rw [Nat.mul_comm]
      exact Nat.div_add_mod _ _
    refine ⟨?_, ?_, ?_, ?_⟩
    · rw [World.getTileRaw, List.get?_eq_getElem?,
        List.getElem?_eq_getElem (by omega)]
      rfl
    · rw [World.getTileRaw, World.getTileRaw, hid]
    · have : (y + 1) * w.width ≤ y * w.width + x := by
        rw [Nat.succ_mul]; omega
      have := (Nat.le_div_iff_mul_le hw).mpr this
      omega
    · rw [World.setTileRaw, World.setTileRaw, hid]
  · intro hout
    refine ⟨?_, ?_⟩
    · rw [World.getTileRaw, List.get?_eq_getElem?, List.getElem?_eq_none]
      omega
    · have : w.grid.set (y * w.width + x) (v % 2 ^ 32) = w.grid :=
        List.set_eq_of_length_le (by omega)
      rw [World.setTileRaw, this]

/-- Witness for claim C9 on the concrete 5 x 5 test world: the in-range
wrapped access at (7, 1) which lands in row 2, and the dropped access at
(24, 4). -/
theorem claim_C9_no_bounds_check_witness :
    ((testWorld.getTileRaw 7 1).isSome ∧
      testWorld.getTileRaw 7 1 = testWorld.getTileRaw 2 2 ∧
      1 < 2 ∧
      testWorld.setTileRaw 7 1 9 = testWorld.setTileRaw 2 2 9) ∧
    (testWorld.getTileRaw 24 4 = none ∧
      testWorld.setTileRaw 24 4 9 = testWorld) := by
  have h := claim_C9_no_bounds_check testWorld 7 1 9 (by decide) (by decide)
  exact ⟨h.1 (by decide),
    (claim_C9_no_bounds_check testWorld 24 4 9 (by decide) (by decide)).2
      (by decide)⟩

/-- Bits at or above the width of a value are zero. -/
theorem testBit_ge_len_false {v len j : Nat} (hv : v < 2 ^ len)
    (hj : len ≤ j) : v.testBit j = false :=
  Nat.testBit_lt_two_pow (lt_of_lt_of_le hv (Nat.pow_le_pow_right
    (by norm_num) hj))

/-- Abstract form of the field round-trip: writing a value narrower than
the field and reading the same field back returns the value. The masked
update is the literal unsigned reading of
(value << off) | (tile & ~mask) with mask = (2^len - 1) << off. -/
theorem setBit_getBit_abstract_same (t v off len : Nat)
    (hv : v < 2 ^ len) (hol : off + len ≤ 32) :
    ((((v <<< off) ||| (t &&& ((2 ^ 32 - 1) ^^^ ((2 ^ len - 1) <<< off))))
        % 2 ^ 32) &&& ((2 ^ len - 1) <<< off)) >>> off = v := by
  apply Nat.eq_of_testBit_eq
  intro j
  simp only [Nat.testBit_shiftRight, Nat.testBit_and, Nat.testBit_mod_two_pow,
    Nat.testBit_or, Nat.testBit_xor, Nat.testBit_shiftLeft,
    Nat.testBit_two_pow_sub_one, ge_iff_le, Nat.le_add_right, decide_True,
    Bool.true_and, Nat.add_sub_cancel_left]
  by_cases hj : j < len
  · by_cases h32 : off + j < 32
    · simp [hj, h32]
    · exact absurd (by omega) h32
  · have hv' : v.testBit j = false := testBit_ge_len_false hv (by omega)
    simp [hj, hv']

/-- Abstract form of field isolation: writing a value narrower than its
field leaves every disjoint field unchanged. -/
theorem setBit_getBit_abstract_other (t v off len off' len' : Nat)
    (ht : t < 2 ^ 32) (hv : v < 2 ^ len)
    (hdisj : off + len ≤ off' ∨ off' + len' ≤ off) :
    ((((v <<< off) ||| (t &&& ((2 ^ 32 - 1) ^^^ ((2 ^ len - 1) <<< off))))
        % 2 ^ 32) &&& ((2 ^ len' - 1) <<< off')) >>> off' =
      (t &&& ((2 ^ len' - 1) <<< off')) >>> off' := by
  apply Nat.eq_of_testBit_eq
  intro j
  simp only [Nat.testBit_shiftRight, Nat.testBit_and, Nat.testBit_mod_two_pow,
    Nat.testBit_or, Nat.testBit_xor, Nat.testBit_shiftLeft,
    Nat.testBit_two_pow_sub_one, ge_iff_le, Nat.le_add_right, decide_True,
    Bool.true_and, Nat.add_sub_cancel_left]
  by_cases hj : j < len'
  · by_cases h32 : off' + j < 32
    · have hA : (decide (off ≤ off' + j) && v.testBit (off' + j - off))
          = false := by
        by_cases hoff : off ≤ off' + j
        · have : v.testBit (off' + j - off) = false := by
            apply testBit_ge_len_false hv
            omega
          simp [hoff, this]
        · simp [hoff]
      have hM : (decide (off ≤ off' + j) && decide (off' + j - off < len))
          = false := by
        by_cases hoff : off ≤ off' + j
        · have : ¬ (off' + j - off < len) := by omega
          simp [hoff, this]
        · simp [hoff]
      simp [hj, h32, hA, hM]
    · have ht' : t.testBit (off' + j) = false :=
        testBit_ge_len_false ht (by omega)
      simp [hj, h32, ht']
  · simp [hj]

/-- Abstract form of the overflow spill: writing a value wider than the
field ORs the excess bits into the bit range just above the field. -/
theorem setBit_spill_abstract (t v off len len' : Nat)
    (hv : v < 2 ^ (len + len')) (hol : off + len + len' ≤ 32) :
    ((((v <<< off) ||| (t &&& ((2 ^ 32 - 1) ^^^ ((2 ^ len - 1) <<< off))))
        % 2 ^ 32) &&& ((2 ^ len' - 1) <<< (off + len))) >>> (off + len) =
      ((t &&& ((2 ^ len' - 1) <<< (off + len))) >>> (off + len)) |||
        (v >>> len) := by
  apply Nat.eq_of_testBit_eq
  intro j
  simp only [Nat.testBit_shiftRight, Nat.testBit_and, Nat.testBit_mod_two_pow,
    Nat.testBit_or, Nat.testBit_xor, Nat.testBit_shiftLeft,
    Nat.testBit_two_pow_sub_one, ge_iff_le, Nat.le_add_right, decide_True,
    Bool.true_and, Nat.add_sub_cancel_left]
  have hoff : off ≤ off + len + j := by omega
  have hsub : off + len + j - off = len + j := by omega
  by_cases hj : j < len'
  · have h32 : off + len + j < 32 := by omega
    have hM : ¬ (off + len + j - off < len) := by omega
    simp [hj, h32, hoff, hsub, hM, Bool.or_comm]
  · have hv' : v.testBit (len + j) = false :=
      testBit_ge_len_false hv (by omega)
    simp [hj, hoff, hsub, hv']

/-- Each mask literal of the bit scheme is the all-ones pattern of the
field width shifted to the field offset. -/
theorem bitScheme_mask_eq (p : TileProp) :
    (bitScheme p).mask =
      (2 ^ (bitScheme p).length - 1) <<< (bitScheme p).offset := by
  cases p <;> rfl

/-- Every field of the bit scheme fits inside the 32-bit tile. -/
theorem bitScheme_off_len_le (p : TileProp) :
    (bitScheme p).offset + (bitScheme p).length ≤ 32 := by
  cases p <;> decide

/-- The bit ranges of distinct fields never overlap. -/
theorem bitScheme_disjoint (p q : TileProp) (h : p ≠ q) :
    (bitScheme p).offset + (bitScheme p).length ≤ (bitScheme q).offset ∨
    (bitScheme q).offset + (bitScheme q).length ≤ (bitScheme p).offset := by
  cases p <;> cases q <;> revert h <;> decide

/-- Round-trip of the tile codec: setBitValue then getBitValue on the same
field returns the written value when it fits the field width. -/
theorem getBitValue_setBitValue_same (t : Nat) (p : TileProp) (v : Nat)
    (hv : v < 2 ^ (bitScheme p).length) :
    getBitValue (setBitValue t p v) p = v := by
  have hle := bitScheme_off_len_le p
  have hv32 : v < 2 ^ 32 :=
    lt_of_lt_of_le hv (Nat.pow_le_pow_right (by norm_num) (by omega))
  unfold getBitValue setBitValue notMask
  rw [bitScheme_mask_eq p, Nat.mod_eq_of_lt hv32]
  exact setBit_getBit_abstract_same t v _ _ hv hle

/-- Isolation of the tile codec: setBitValue of a value that fits the
field leaves every other field unchanged. -/
theorem getBitValue_setBitValue_other (t : Nat) (p q : TileProp) (v : Nat)
    (ht : t < 2 ^ 32) (hv : v < 2 ^ (bitScheme p).length) (hne : q ≠ p) :
    getBitValue (setBitValue t p v) q = getBitValue t q := by
  have hv32 : v < 2 ^ 32 := lt_of_lt_of_le hv
    (Nat.pow_le_pow_right (by norm_num)
      (by have := bitScheme_off_len_le p; omega))
  unfold getBitValue setBitValue notMask
  rw [bitScheme_mask_eq p, bitScheme_mask_eq q, Nat.mod_eq_of_lt hv32]
  exact setBit_getBit_abstract_other t v _ _ _ _ ht hv
    (bitScheme_disjoint p q (fun h => hne h.symm))

/-- Flat row-major index of an in-bounds coordinate is inside the grid. -/
theorem flat_index_lt (w : World) (x y : Nat) (hx : x < w.width)
    (hy : y < w.height) (hlen : w.grid.length = w.width * w.height) :
    y * w.width + x < w.grid.length := by
  rw [hlen]
  have h1 : y * w.width + x < (y + 1) * w.width := by
    rw [Nat.succ_mul]; omega
  have h2 : (y + 1) * w.width ≤ w.width * w.height := by
    rw [Nat.mul_comm w.width w.height]
    exact Nat.mul_le_mul_right _ hy
  omega

/-- Claim C1: for every field, every in-bounds coordinate, every 32-bit
initial tile value and every value below 2^width of the field,
setTileProp then getTileProp on that field returns the value, and
getTileProp of every other field of that tile is unchanged. -/
theorem claim_C1_field_roundtrip_isolation (w : World) (x y : Nat)
    (p q : TileProp) (v t : Nat) (hx : x < w.width) (hy : y < w.height)
    (hlen : w.grid.length = w.width * w.height)
    (ht : w.getTileRaw x y = some t) (ht32 : t < 2 ^ 32)
    (hv : v < 2 ^ (bitScheme p).length) :
    (w.setTileProp x y p v).getTileProp x y p = v ∧
    (q ≠ p →
      (w.setTileProp x y p v).getTileProp x y q = w.getTileProp x y q) := by
  have hidx : y * w.width + x < w.grid.length := flat_index_lt w x y hx hy hlen
  have hset : setBitValue t p v < 2 ^ 32 := by
    unfold setBitValue
    exact Nat.mod_lt _ (by norm_num)
  have hread : (w.setTileProp x y p v).getTileRaw x y
      = some (setBitValue t p v) := by
    unfold World.setTileProp
    rw [ht]
    show (w.setTileRaw x y (setBitValue t p v)).getTileRaw x y = _
    unfold World.setTileRaw World.getTileRaw
    rw [List.get?_eq_getElem?, List.getElem?_set_eq_of_lt _ hidx,
      Nat.mod_eq_of_lt hset]
  constructor
  · unfold World.getTileProp
    rw [hread]
    exact getBitValue_setBitValue_same t p v hv
  · intro hne
    unfold World.getTileProp
    rw [hread, ht]
    exact getBitValue_setBitValue_other t p q v ht32 hv hne

/-- Witness for claim C1 at the 0xe009 vector of the test file: the
entityType round-trip returns 5 and the entityId field is untouched. -/
theorem claim_C1_field_roundtrip_isolation_witness :
    ((testWorld.setTileRaw 3 3 0xe009).setTileProp 3 3 .entityType
        5).getTileProp 3 3 .entityType = 5 ∧
    ((testWorld.setTileRaw 3 3 0xe009).setTileProp 3 3 .entityType
        5).getTileProp 3 3 .entityId =
      (testWorld.setTileRaw 3 3 0xe009).getTileProp 3 3 .entityId := by
  have h := claim_C1_field_roundtrip_isolation
    (testWorld.setTileRaw 3 3 0xe009) 3 3 .entityType .entityId 5 0xe009
    (by decide) (by decide) (by decide) (by decide) (by decide) (by decide)
  exact ⟨h.1, h.2 (by decide)⟩

/-- The adjacent higher field of each field of the packed layout;
foodTrail is the top field, above it lie only the reserved bits. -/
def nextField : TileProp → Option TileProp
  | .entityType => some .entityId
  | .entityId => some .terrain
  | .terrain => some .homeTrail
  | .homeTrail => some .foodTrail
  | .foodTrail => none

/-- An adjacent field starts exactly where the lower field ends. -/
theorem nextField_adjacent (p q : TileProp) (h : nextField p = some q) :
    (bitScheme q).offset = (bitScheme p).offset + (bitScheme p).length := by
  cases p <;> cases q <;> revert h <;> decide

/-- A field together with its adjacent field fits inside 32 bits. -/
theorem nextField_bound (p q : TileProp) (h : nextField p = some q) :
    (bitScheme p).offset + (bitScheme p).length + (bitScheme q).length
      ≤ 32 := by
  cases p <;> cases q <;> revert h <;> decide

/-- Claim C4: setBitValue performs no range check and never fails: for any
value, also one at least 2^width of the field, the result is the plain
unsigned evaluation of (value << offset) | (tile & ~mask); when the field
has an adjacent higher field and the value fits the two field widths
combined, the excess high bits land in the adjacent field, which
afterwards reads as its old value ORed with those bits; in particular a
zeroed adjacent field is overwritten with the nonzero excess bits, and no
error is raised. -/
theorem claim_C4_no_range_check_spill (t v : Nat) (p : TileProp)
    (ht : t < 2 ^ 32) (hv32 : v < 2 ^ 32)
    (hbig : 2 ^ (bitScheme p).length ≤ v) :
    setBitValue t p v =
      ((v <<< (bitScheme p).offset) ||| (t &&& notMask p)) % 2 ^ 32 ∧
    (∀ q, nextField p = some q →
      v < 2 ^ ((bitScheme p).length + (bitScheme q).length) →
      getBitValue (setBitValue t p v) q =
        getBitValue t q ||| (v >>> (bitScheme p).length) ∧
      v >>> (bitScheme p).length ≠ 0 ∧
      (getBitValue t q = 0 →
        getBitValue (setBitValue t p v) q = v >>> (bitScheme p).length)) := by
  constructor
  · unfold setBitValue
    rw [Nat.mod_eq_of_lt hv32]
  · intro q hq hvq
    have hadj := nextField_adjacent p q hq
    have hbnd := nextField_bound p q hq
    have hspill : getBitValue (setBitValue t p v) q
        = getBitValue t q ||| (v >>> (bitScheme p).length) := by
      unfold getBitValue setBitValue notMask
      rw [bitScheme_mask_eq p, bitScheme_mask_eq q, Nat.mod_eq_of_lt hv32,
        hadj]
      exact setBit_spill_abstract t v _ _ _ hvq (by omega)
    have hnz : v >>> (bitScheme p).length ≠ 0 := by
      rw [Nat.shiftRight_eq_div_pow]
      have hpos : 0 < 2 ^ (bitScheme p).length :=
        Nat.pos_pow_of_pos _ (by norm_num)
      have h1 : 1 ≤ v / 2 ^ (bitScheme p).length :=
        (Nat.one_le_div_iff hpos).mpr hbig
      omega
    exact ⟨hspill, hnz, fun h0 => by rw [hspill, h0, Nat.zero_or]⟩

/-- Witness for claim C4: writing 17 into the 4-bit entityType of a zero
tile spills the high bit into entityId, which reads back as 1. -/
theorem claim_C4_no_range_check_spill_witness :
    setBitValue 0 .entityType 17 =
      ((17 <<< (bitScheme .entityType).offset) |||
        (0 &&& notMask .entityType)) % 2 ^ 32 ∧
    getBitValue (setBitValue 0 .entityType 17) .entityId =
      getBitValue 0 .entityId |||
        (17 >>> (bitScheme .entityType).length) := by
  have h := claim_C4_no_range_check_spill 0 17 .entityType (by decide)
    (by decide) (by decide)
  exact ⟨h.1, (h.2 .entityId (by decide) (by decide)).1⟩

/-- A point of a filtered list is counted only if the predicate holds. -/
theorem count_filter_neg {α : Type} [DecidableEq α] {a : α} {p : α → Bool}
    {l : List α} (h : p a = false) : (l.filter p).count a = 0 :=
  List.count_eq_zero.mpr fun hmem => by
    have h2 := (List.mem_filter.mp hmem).2
    rw [h] at h2
    exact Bool.false_ne_true h2

/-- The four quadrants of a boundary cover it: a contained point is
contained in at least one quadrant. -/
theorem Rectangle.quad_cover (b : Rectangle) (e : Entity)
    (h : b.containsE e = true) :
    b.quadNW.containsE e = true ∨ b.quadNE.containsE e = true ∨
    b.quadSW.containsE e = true ∨ b.quadSE.containsE e = true := by
  unfold Rectangle.containsE Rectangle.containsP Rectangle.quadNW
    Rectangle.quadNE Rectangle.quadSW Rectangle.quadSE at *
  simp only [Bool.and_eq_true, decide_eq_true_eq] at *
  obtain ⟨⟨⟨h1, h2⟩, h3⟩, h4⟩ := h
  rcases le_total e.x b.x with hx | hx <;> rcases le_total e.y b.y with hy | hy
  · exact Or.inl ⟨⟨⟨by linarith, by linarith⟩, by linarith⟩, by linarith⟩
  · exact Or.inr (Or.inr (Or.inl
      ⟨⟨⟨by linarith, by linarith⟩, by linarith⟩, by linarith⟩))
  · exact Or.inr (Or.inl ⟨⟨⟨by linarith, by linarith⟩, by linarith⟩,
      by linarith⟩)
  · exact Or.inr (Or.inr (Or.inr
      ⟨⟨⟨by linarith, by linarith⟩, by linarith⟩, by linarith⟩))

/-- Subdivision is always well-formed: each child holds exactly the
points its quadrant contains. -/
theorem Quadtree.wf_subdivide (b : Rectangle) (c : Nat)
    (pts : List Entity) : (Quadtree.subdivide b c pts).wf = true := by
  unfold Quadtree.subdivide
  simp only [Quadtree.wf, Quadtree.boundary, beq_self_eq_true,
    Bool.true_and, Bool.and_eq_true, List.all_eq_true]
  refine ⟨⟨⟨?_, ?_⟩, ?_⟩, ?_⟩ <;>
    (intro p hp
     have h2 := (List.mem_filter.mp hp).2
     simp only [Bool.and_eq_true] at h2) <;>
    tauto

/-- Subdivision preserves the stored references of every entity when all
points lie inside the boundary being subdivided. -/
theorem Quadtree.count_subdivide (e : Entity) (b : Rectangle) (c : Nat)
    (pts : List Entity) (hwf : ∀ p ∈ pts, b.containsE p = true) :
    (Quadtree.subdivide b c pts).count e = pts.count e := by
  unfold Quadtree.subdivide
  simp only [Quadtree.count]
  by_cases he : e ∈ pts
  · have hc := hwf e he
    have hcov := Rectangle.quad_cover b e hc
    have hS : ∀ pred : Entity → Bool, (pts.filter pred).count e
        = if pred e = true then pts.count e else 0 := by
      intro pred
      by_cases hp : pred e = true
      · rw [if_pos hp, List.count_filter hp]
      · rw [if_neg hp, count_filter_neg (Bool.eq_false_iff.mpr hp)]
    rcases hcov with h | h | h | h
    · simp [hS, h]
    · cases hb1 : b.quadNW.containsE e <;> simp [hS, h, hb1]
    · cases hb1 : b.quadNW.containsE e <;> cases hb2 : b.quadNE.containsE e
        <;> simp [hS, h, hb1, hb2]
    · cases hb1 : b.quadNW.containsE e <;> cases hb2 : b.quadNE.containsE e
        <;> cases hb3 : b.quadSW.containsE e <;> simp [hS, h, hb1, hb2, hb3]
  · have h0 : pts.count e = 0 := List.count_eq_zero.mpr he
    have hf : ∀ (f : Entity → Bool), (pts.filter f).count e = 0 :=
      fun f => List.count_eq_zero.mpr
        fun hmem => he (List.mem_of_mem_filter hmem)
    rw [h0, hf, hf, hf, hf]

/-- A successful quadtree insert grows the reference count of the
inserted entity by one exactly when the returned flag is true, leaves
every other count unchanged, preserves well-formedness, and keeps the
boundary. -/
theorem Quadtree.insert_count (e e' : Entity) :
    ∀ (fuel : Nat) (t t' : Quadtree) (f : Bool), t.wf = true →
      Quadtree.insert e' fuel t = some (t', f) →
      t'.count e = t.count e + (if f = true ∧ e' = e then 1 else 0) ∧
      t'.wf = true ∧ t'.boundary = t.boundary := by
  intro fuel
  induction fuel with
  | zero =>
    intro t t' f hwf hins
    simp [Quadtree.insert] at hins
  | succ fuel ih =>
    intro t t' f hwf hins
    cases t with
    | leaf b c pts =>
      simp only [Quadtree.insert] at hins
      cases hb : b.containsE e' with
      | false =>
        simp [hb] at hins
        obtain ⟨ht', hf⟩ := hins
        subst ht'
        subst hf
        simpa using hwf
      | true =>
        by_cases hlen : pts.length < c
        · simp [hb, hlen] at hins
          obtain ⟨ht', hf⟩ := hins
          subst ht'
          subst hf
          simp only [Quadtree.wf] at hwf
          refine ⟨?_, ?_, rfl⟩
          · simp only [Quadtree.count, List.count_append]
            by_cases heq : e' = e <;>
              simp [heq, List.count_cons, List.count_nil]
          · simp [Quadtree.wf, List.all_append, hwf, hb]
        · simp [hb, hlen] at hins
          have hwfpts : ∀ p ∈ pts, b.containsE p = true := by
            simpa only [Quadtree.wf, List.all_eq_true] using hwf
          obtain ⟨hcnt, hwf', hbd⟩ :=
            ih _ _ _ (Quadtree.wf_subdivide b c pts) hins
          refine ⟨?_, hwf', hbd⟩
          rw [hcnt, Quadtree.count_subdivide e b c pts hwfpts]
          rfl
    | node b c nw ne sw se =>
      simp only [Quadtree.insert] at hins
      cases hb : b.containsE e' with
      | false =>
        simp [hb] at hins
        obtain ⟨ht', hf⟩ := hins
        subst ht'
        subst hf
        simpa using hwf
      | true =>
        simp only [hb, Bool.not_true] at hins
        rw [if_neg (by simp)] at hins
        have hwf0 := hwf
        simp only [Quadtree.wf, Bool.and_eq_true, beq_iff_eq] at hwf0
        obtain ⟨⟨⟨⟨⟨⟨⟨hb1, hb2⟩, hb3⟩, hb4⟩, hw1⟩, hw2⟩, hw3⟩, hw4⟩ := hwf0
        by_cases h1 : nw.boundary.containsE e' = true
        · simp only [h1, if_true] at hins
          obtain ⟨⟨nw1, f1⟩, hins1, heq⟩ := Option.map_eq_some'.mp hins
          simp only [Prod.mk.injEq] at heq
          obtain ⟨ht', hf⟩ := heq
          subst ht'
          subst hf
          obtain ⟨hcnt, hwf1, hbd1⟩ := ih _ _ _ hw1 hins1
          refine ⟨?_, ?_, rfl⟩
          · simp only [Quadtree.count]
            omega
          · simp [Quadtree.wf, hbd1, hb1, hb2, hb3, hb4, hwf1, hw2, hw3,
              hw4]
        · simp only [h1, if_false] at hins
          by_cases h2 : ne.boundary.containsE e' = true
          · simp only [h2, if_true] at hins
            obtain ⟨⟨ne1, f1⟩, hins1, heq⟩ := Option.map_eq_some'.mp hins
            simp only [Prod.mk.injEq] at heq
            obtain ⟨ht', hf⟩ := heq
            subst ht'
            subst hf
            obtain ⟨hcnt, hwf1, hbd1⟩ := ih _ _ _ hw2 hins1
            refine ⟨?_, ?_, rfl⟩
            · simp only [Quadtree.count]
              omega
            · simp [Quadtree.wf, hbd1, hb1, hb2, hb3, hb4, hw1, hwf1, hw3,
                hw4]
          · simp only [h2, if_false] at hins
            by_cases h3 : sw.boundary.containsE e' = true
            · simp only [h3, if_true] at hins
              obtain ⟨⟨sw1, f1⟩, hins1, heq⟩ := Option.map_eq_some'.mp hins
              simp only [Prod.mk.injEq] at heq
              obtain ⟨ht', hf⟩ := heq
              subst ht'
              subst hf
              obtain ⟨hcnt, hwf1, hbd1⟩ := ih _ _ _ hw3 hins1
              refine ⟨?_, ?_, rfl⟩
              · simp only [Quadtree.count]
                omega
              · simp [Quadtree.wf, hbd1, hb1, hb2, hb3, hb4, hw1, hw2,
                  hwf1, hw4]
            · simp only [h3, if_false] at hins
              by_cases h4 : se.boundary.containsE e' = true
              · simp only [h4, if_true] at hins
                obtain ⟨⟨se1, f1⟩, hins1, heq⟩ := Option.map_eq_some'.mp hins
                simp only [Prod.mk.injEq] at heq
                obtain ⟨ht', hf⟩ := heq
                subst ht'
                subst hf
                obtain ⟨hcnt, hwf1, hbd1⟩ := ih _ _ _ hw4 hins1
                refine ⟨?_, ?_, rfl⟩
                · simp only [Quadtree.count]
                  omega
                · simp [Quadtree.wf, hbd1, hb1, hb2, hb3, hb4, hw1, hw2,
                    hw3, hwf1]
              · simp only [h4, if_false, Option.some.injEq,
                  Prod.mk.injEq] at hins
                obtain ⟨ht', hf⟩ := hins
                exact ⟨by simp, hwf, rfl⟩

/-- A successful insert of an entity contained in the boundary of a
well-formed quadtree always reports the inserted flag true. -/
theorem Quadtree.insert_flag (e' : Entity) :
    ∀ (fuel : Nat) (t t' : Quadtree) (f : Bool), t.wf = true →
      t.boundary.containsE e' = true →
      Quadtree.insert e' fuel t = some (t', f) → f = true := by
  intro fuel
  induction fuel with
  | zero =>
    intro t t' f hwf hc hins
    simp [Quadtree.insert] at hins
  | succ fuel ih =>
    intro t t' f hwf hc hins
    cases t with
    | leaf b c pts =>
      have hb : b.containsE e' = true := hc
      simp only [Quadtree.insert] at hins
      by_cases hlen : pts.length < c
      · simp [hb, hlen] at hins
        exact hins.2
      · simp [hb, hlen] at hins
        exact ih _ _ _ (Quadtree.wf_subdivide b c pts) hb hins
    | node b c nw ne sw se =>
      have hb : b.containsE e' = true := hc
      simp only [Quadtree.insert] at hins
      rw [hb] at hins
      rw [if_neg (by simp)] at hins
      have hwf0 := hwf
      simp only [Quadtree.wf, Bool.and_eq_true, beq_iff_eq] at hwf0
      obtain ⟨⟨⟨⟨⟨⟨⟨hb1, hb2⟩, hb3⟩, hb4⟩, hw1⟩, hw2⟩, hw3⟩, hw4⟩ := hwf0
      by_cases h1 : nw.boundary.containsE e' = true
      · simp only [h1, if_true] at hins
        obtain ⟨⟨nw1, f1⟩, hins1, heq⟩ := Option.map_eq_some'.mp hins
        simp only [Prod.mk.injEq] at heq
        rw [← heq.2]
        exact ih _ _ _ hw1 h1 hins1
      · simp only [h1, if_false] at hins
        by_cases h2 : ne.boundary.containsE e' = true
        · simp only [h2, if_true] at hins
          obtain ⟨⟨ne1, f1⟩, hins1, heq⟩ := Option.map_eq_some'.mp hins
          simp only [Prod.mk.injEq] at heq
          rw [← heq.2]
          exact ih _ _ _ hw2 h2 hins1
        · simp only [h2, if_false] at hins
          by_cases h3 : sw.boundary.containsE e' = true
          · simp only [h3, if_true] at hins
            obtain ⟨⟨sw1, f1⟩, hins1, heq⟩ := Option.map_eq_some'.mp hins
            simp only [Prod.mk.injEq] at heq
            rw [← heq.2]
            exact ih _ _ _ hw3 h3 hins1
          · simp only [h3, if_false] at hins
            by_cases h4 : se.boundary.containsE e' = true
            · simp only [h4, if_true] at hins
              obtain ⟨⟨se1, f1⟩, hins1, heq⟩ := Option.map_eq_some'.mp hins
              simp only [Prod.mk.injEq] at heq
              rw [← heq.2]
              exact ih _ _ _ hw4 h4 hins1
            · exfalso
              rcases Rectangle.quad_cover b e' hb with h | h | h | h
              · exact h1 (by rw [hb1]; exact h)
              · exact h2 (by rw [hb2]; exact h)
              · exact h3 (by rw [hb3]; exact h)
              · exact h4 (by rw [hb4]; exact h)

/-- Claim C10: re-inserting an entity that is already a member of a layer
leaves the membership set of the layer entirely unchanged (set semantics
deduplicate), while the global entity list gains a second reference and
the quadtree of the layer stores a second reference; one subsequent
remove then erases only the first occurrence from the global list, so a
duplicate reference stays behind. -/
theorem claim_C10_duplicate_insert (w : World) (e : Entity) (lid : String)
    (fuel : Nat) (layer : Layer) (w' : World)
    (hl : lookupLayer w.entityLayers lid = some layer)
    (hmem : e ∈ layer.entities) (hg : e ∈ w.entities)
    (hwf : layer.qtree.wf = true)
    (hcont : layer.qtree.boundary.containsE e = true)
    (hins : w.insert e lid fuel = some w') :
    (∃ qt : Quadtree,
      lookupLayer w'.entityLayers lid = some ⟨layer.entities, qt⟩ ∧
      qt.count e = layer.qtree.count e + 1) ∧
    w'.entities = w.entities ++ [e] ∧
    (w'.remove e lid).1.entities = (w.entities ++ [e]).erase e ∧
    e ∈ (w'.remove e lid).1.entities := by
  simp only [World.insert, hl, hmem, if_pos] at hins
  cases hq : Quadtree.insert e fuel layer.qtree with
  | none => rw [hq] at hins; exact absurd hins (by simp)
  | some p =>
    obtain ⟨qt, f⟩ := p
    rw [hq] at hins
    simp only [Option.some.injEq] at hins
    subst hins
    have hflag : f = true :=
      Quadtree.insert_flag e fuel layer.qtree qt f hwf hcont hq
    subst hflag
    obtain ⟨hcnt, _, _⟩ :=
      Quadtree.insert_count e e fuel layer.qtree qt true hwf hq
    have hcnt1 : qt.count e = layer.qtree.count e + 1 := by
      rw [hcnt]
      simp
    have hent : (w.entities ++ [e]).count e = w.entities.count e + 1 := by
      simp [List.count_append]
    constructor
    · exact ⟨qt, lookupLayer_setLayer _ _ _, hcnt1⟩
    · refine ⟨rfl, ?_, ?_⟩
      · simp only [World.remove]
        cases hl2 : lookupLayer
            (setLayer w.entityLayers lid ⟨layer.entities, qt⟩) lid <;>
          simp [hl2]
      · have hone : 0 < w.entities.count e := List.count_pos_iff.mpr hg
        have hcount : ((w.entities ++ [e]).erase e).count e
            = w.entities.count e := by
          rw [List.count_erase_self, hent]
          omega
        have hmem2 : e ∈ (w.entities ++ [e]).erase e :=
          List.count_pos_iff.mp (by omega)
        have hrem : (((w.insert e lid fuel).getD w).remove e lid).1.entities
            = ((w.insert e lid fuel).getD w).entities.erase e := by
          simp only [World.remove]
          cases hl3 : lookupLayer
              ((w.insert e lid fuel).getD w).entityLayers lid <;>
            simp [hl3]
        simp only [World.remove]
        cases hl4 : lookupLayer
            (setLayer w.entityLayers lid ⟨layer.entities, qt⟩) lid <;>
          simpa [hl4] using hmem2

/-- The test layer after the duplicate insertion of entA. -/
def layerA2 : Layer := ⟨[entA], Quadtree.leaf rectA 4 [entA, entA]⟩

/-- The world worldA after re-inserting entA into layer "A". -/
def worldA2 : World :=
  ⟨5, 5, List.replicate 100 0, List.replicate 25 0, [entA, entA],
    [("A", layerA2)]⟩

/-- The test rectangle contains the test entity. -/
theorem rectA_contains_entA : rectA.containsE entA = true := by
  simp only [Rectangle.containsE, Rectangle.containsP, rectA, entA,
    Bool.and_eq_true, decide_eq_true_eq]
  norm_num

/-- The quadtree of the test layer is well-formed. -/
theorem layerA_qtree_wf : layerA.qtree.wf = true := by
  simp [layerA, Quadtree.wf, rectA_contains_entA]

/-- Evaluation of the duplicate quadtree insertion of the witness. -/
theorem insertA_eval :
    Quadtree.insert entA 9 (Quadtree.leaf rectA 4 [entA])
      = some (Quadtree.leaf rectA 4 [entA, entA], true) := by
  show Quadtree.insert entA (Nat.succ 8) (Quadtree.leaf rectA 4 [entA]) = _
  simp [Quadtree.insert, rectA_contains_entA]

/-- Evaluation of the duplicate world insertion of the witness. -/
theorem worldA_insert_eval : worldA.insert entA "A" 9 = some worldA2 := by
  have hl : lookupLayer worldA.entityLayers "A" = some layerA := rfl
  simp only [World.insert, hl]
  rw [if_pos (show entA ∈ layerA.entities by simp [layerA])]
  rw [show layerA.qtree = Quadtree.leaf rectA 4 [entA] from rfl, insertA_eval]
  simp [worldA, worldA2, layerA, layerA2, setLayer]

/-- Witness for claim C10: re-inserting entA into layer "A" of worldA. -/
theorem claim_C10_duplicate_insert_witness :
    (∃ qt : Quadtree,
      lookupLayer worldA2.entityLayers "A" = some ⟨layerA.entities, qt⟩ ∧
      qt.count entA = layerA.qtree.count entA + 1) ∧
    worldA2.entities = worldA.entities ++ [entA] ∧
    (worldA2.remove entA "A").1.entities
      = (worldA.entities ++ [entA]).erase entA ∧
    entA ∈ (worldA2.remove entA "A").1.entities :=
  claim_C10_duplicate_insert worldA entA "A" 9 layerA worldA2 (by rfl)
    (by decide) (by decide) layerA_qtree_wf
    (by simpa [layerA, Quadtree.boundary] using rectA_contains_entA)
    worldA_insert_eval

end AntFarm
